import Mathlib

/-!
Verification of the duty-indexed navigation core of `timeboard`
(`timeboard/workshift.py`): the duty index resolution, the two search
primitives (`numpy.searchsorted` on the forward path, a linear scan on the
backward path), the two-phase stepping algorithms `rollforward` and
`rollback`, the `+`/`-` convenience operators, and `Workshift.__init__`.
-/

namespace Timeboard

/-- Modelled from the spec: the external `_Schedule` collaborator (its code is
not part of this repository's navigation source).  Per the spec it is a black
box producing a boolean duty flag per position over a fixed range `[0, N)`,
from which the two strictly increasing duty index arrays are derived: the
on-duty positions and their complement. -/
structure Schedule where
  N : Nat
  isOn : Nat → Bool

/-- Modelled from the spec: `schedule.on_duty_index`, the strictly increasing
sequence of on-duty positions within `[0, N)`. -/
def Schedule.on_duty_index (s : Schedule) : List Nat :=
  (List.range s.N).filter s.isOn

/-- Modelled from the spec: `schedule.off_duty_index`, the strictly increasing
sequence of off-duty positions — the complement of `on_duty_index` within
`[0, N)`. -/
def Schedule.off_duty_index (s : Schedule) : List Nat :=
  (List.range s.N).filter (fun p => ! s.isOn p)

/-- Modelled from the spec: `schedule.index`, the full ordered range `[0, N)`
(the `"any"` view). -/
def Schedule.index (s : Schedule) : List Nat :=
  List.range s.N

/-- Modelled from the spec: `schedule.is_on_duty(loc)`. -/
def Schedule.is_on_duty (s : Schedule) (loc : Nat) : Bool :=
  s.isOn loc

/-- Modelled from the spec: `schedule.is_off_duty(loc)`, the negation of the
duty flag (on-duty and off-duty partition the range). -/
def Schedule.is_off_duty (s : Schedule) (loc : Nat) : Bool :=
  ! s.isOn loc

/-- The binary search behind `numpy.searchsorted(idx, v)` (default
`side='left'`): maintains `lo`/`hi` bounds, probing the midpoint, exactly as
the C implementation of `bisect_left` does.  The structural `fuel` argument
bounds the number of halving steps; callers pass the initial interval width,
which always suffices (`bisectLeftAux_spec`). -/
def bisectLeftAux (a : List Nat) (v : Nat) : Nat → Nat → Nat → Nat
  | 0, lo, _ => lo
  | fuel + 1, lo, hi =>
    if lo < hi then
      if a.getD ((lo + hi) / 2) 0 < v then
        bisectLeftAux a v fuel ((lo + hi) / 2 + 1) hi
      else
        bisectLeftAux a v fuel lo ((lo + hi) / 2)
    else lo

/-- `numpy.searchsorted(a, v)` as called in `rollforward` (line 198). -/
def searchsorted (a : List Nat) (v : Nat) : Nat :=
  bisectLeftAux a v a.length 0 a.length

/-- The loop body of the linear scan in `rollback` (lines 273-275):
`i = len_idx - 1; while i >= 0 and idx[i] > loc: i -= 1`.  The argument `n`
stands for `i + 1`, so `n = 0` is the loop having run past `i = -1`. -/
def scanBackAux (idx : List Nat) (loc : Nat) : Nat → Int
  | 0 => -1
  | n + 1 => if idx.getD n 0 > loc then scanBackAux idx loc n else (n : Int)

/-- The whole linear scan in `rollback`: the final value of `i`, in
`[-1, len_idx - 1]`. -/
def scanBack (idx : List Nat) (loc : Nat) : Int :=
  scanBackAux idx loc idx.length

/-- Python/NumPy sequence subscription `a[k]` with an `Int` subscript: a
negative index counts from the end (wraparound).  An index that is out of
range even after that adjustment would raise in Python; it is modelled by the
default value `0` here, and the bounds-safety claim shows the callers' guards
keep every access in the true range. -/
def pyGetD (a : List Nat) (k : Int) : Nat :=
  if k < 0 then a.getD (k + a.length).toNat 0 else a.getD k.toNat 0

/-- The duty-mode resolution shared (textually duplicated) by `rollforward`
(lines 189-195) and `rollback` (lines 263-269):

```
idx = schedule.on_duty_index
if (duty == 'off') or (duty == 'same' and self.is_off_duty) or (
                duty == 'alt' and self.is_on_duty):
    idx = schedule.off_duty_index
elif duty == 'any':
    idx = schedule.index
```
-/
def resolveIdx (s : Schedule) (loc : Nat) (duty : String) : List Nat :=
  if duty = "off" ∨ (duty = "same" ∧ s.is_off_duty loc) ∨
      (duty = "alt" ∧ s.is_on_duty loc) then
    s.off_duty_index
  else if duty = "any" then
    s.index
  else
    s.on_duty_index

/-- `Workshift.rollforward(steps, duty)` (lines 189-205).  `none` models the
call to the container's `_handle_out_of_bounds` hook; `some p` models
returning `Workshift(tb, idx[i + steps], schedule)` where `p` is the new
location. -/
def rollforward (s : Schedule) (loc : Nat) (steps : Int) (duty : String) :
    Option Nat :=
  let idx := resolveIdx s loc duty
  let len_idx := idx.length
  let i := searchsorted idx loc
  if i = len_idx ∨ (i : Int) + steps < 0 ∨ (i : Int) + steps ≥ (len_idx : Int)
  then none
  else some (pyGetD idx ((i : Int) + steps))

/-- `Workshift.rollback(steps, duty)` (lines 263-283), with the linear scan
for the anchor and the mirrored guard `i == -1 or i - steps < 0 or
i - steps >= len_idx`. -/
def rollback (s : Schedule) (loc : Nat) (steps : Int) (duty : String) :
    Option Nat :=
  let idx := resolveIdx s loc duty
  let len_idx := idx.length
  let i := scanBack idx loc
  if i = -1 ∨ i - steps < 0 ∨ i - steps ≥ (len_idx : Int)
  then none
  else some (pyGetD idx (i - steps))

/-- The right operand of `Workshift.__add__` / `__sub__`: a Python `int`, a
`Workshift`, or any other value. -/
inductive PyOperand where
  | int (n : Int)
  | workshift (s : Schedule) (loc : Nat)
  | otherValue

/-- `Workshift.__add__` (lines 285-290): `isinstance(other, int)` dispatches
to `rollforward(steps=other, duty='on')`; anything else is `NotImplemented`
(modelled by the outer `none`). -/
def wsAdd (s : Schedule) (loc : Nat) : PyOperand → Option (Option Nat)
  | .int n => some (rollforward s loc n "on")
  | _ => none

/-- `Workshift.__sub__` (lines 292-299): a Python `int` dispatches to
`rollback(steps=other, duty='on')`; a `Workshift` or any other value is
`NotImplemented` (the outer `none`). -/
def wsSub (s : Schedule) (loc : Nat) : PyOperand → Option (Option Nat)
  | .int n => some (rollback s loc n "on")
  | _ => none

/-- Outcome of the external `schedule.label(location)` lookup, as the
constructor observes it: a label, a `TypeError` (location not integer-like),
or an `IndexError` (location out of range). -/
inductive LabelResult where
  | ok (label : Int)
  | typeError
  | indexError
deriving DecidableEq

/-- Outcome of `Workshift.__init__`: a constructed workshift (its stored
location and label), a raised `TypeError`, or a raised `OutOfBoundsError`. -/
inductive InitResult where
  | ok (loc : Int) (label : Int)
  | typeMismatch
  | outOfBounds
deriving DecidableEq

/-- `Workshift.__init__` (lines 51-70): tries `schedule.label(location)`,
re-raising `TypeError` as a type-mismatch and `IndexError` as
`OutOfBoundsError`, and otherwise storing the location unchanged.  The
negative-location pre-check is commented out in the source, so no check on
`loc` is made here; the lookup alone decides.  The lookup itself is the
external schedule's, passed in as a function. -/
def workshiftInit (lookup : Int → LabelResult) (loc : Int) : InitResult :=
  match lookup loc with
  | .ok label => .ok loc label
  | .typeError => .typeMismatch
  | .indexError => .outOfBounds

/-- `positionOfOrAfter(seq, pos)` as the spec words it: the smallest index
`i` such that `seq[i] >= pos`, or `len(seq)` if none. -/
def positionOfOrAfter (a : List Nat) (v : Nat) : Nat :=
  match a with
  | [] => 0
  | x :: xs => if v ≤ x then 0 else positionOfOrAfter xs v + 1

/-- `positionOfOrBefore(seq, pos)` as the spec words it: the largest index
`i` such that `seq[i] <= pos`, or `-1` if none. -/
def positionOfOrBefore (a : List Nat) (v : Nat) : Int :=
  match a with
  | [] => -1
  | x :: xs =>
    let r := positionOfOrBefore xs v
    if 0 ≤ r then r + 1 else if x ≤ v then 0 else -1

/-- The spec's running example: `N = 10`, on-duty at the even positions
`{0,2,4,6,8}`, off-duty at the odd ones. -/
def s10 : Schedule :=
  { N := 10, isOn := fun p => p % 2 == 0 }

/-! ### Sortedness of every resolved duty index -/

theorem sorted_on_duty_index (s : Schedule) :
    s.on_duty_index.Sorted (· < ·) :=
  (List.sorted_lt_range s.N).filter s.isOn

theorem sorted_off_duty_index (s : Schedule) :
    s.off_duty_index.Sorted (· < ·) :=
  (List.sorted_lt_range s.N).filter _

theorem sorted_index (s : Schedule) : s.index.Sorted (· < ·) :=
  List.sorted_lt_range s.N

theorem sorted_resolveIdx (s : Schedule) (loc : Nat) (duty : String) :
    (resolveIdx s loc duty).Sorted (· < ·) := by
  unfold resolveIdx
  split
  · exact sorted_off_duty_index s
  · split
    · exact sorted_index s
    · exact sorted_on_duty_index s

/-! ### Indexing facts about sorted lists -/

theorem getD_lt_getD {a : List Nat} (hs : a.Sorted (· < ·)) {i j : Nat}
    (hij : i < j) (hj : j < a.length) : a.getD i 0 < a.getD j 0 := by
  have hi : i < a.length := lt_trans hij hj
  rw [List.getD_eq_getElem a 0 hi, List.getD_eq_getElem a 0 hj]
  exact List.pairwise_iff_getElem.mp hs i j hi hj hij

theorem getD_le_getD {a : List Nat} (hs : a.Sorted (· < ·)) {i j : Nat}
    (hij : i ≤ j) (hj : j < a.length) : a.getD i 0 ≤ a.getD j 0 := by
  rcases Nat.lt_or_ge i j with h | h
  · exact Nat.le_of_lt (getD_lt_getD hs h hj)
  · have : i = j := by omega
    subst this
    exact Nat.le_refl _

theorem getD_inj {a : List Nat} (hs : a.Sorted (· < ·)) {i j : Nat}
    (hi : i < a.length) (hj : j < a.length)
    (h : a.getD i 0 = a.getD j 0) : i = j := by
  by_contra hne
  rcases Nat.lt_or_ge i j with hlt | hge
  · have := getD_lt_getD hs hlt hj
    omega
  · have hlt : j < i := by omega
    have := getD_lt_getD hs hlt hi
    omega

theorem getD_mem {a : List Nat} {j : Nat} (hj : j < a.length) :
    a.getD j 0 ∈ a := by
  rw [List.getD_eq_getElem a 0 hj]
  exact List.getElem_mem hj

/-! ### `positionOfOrAfter`: the spec's ceiling search -/

theorem positionOfOrAfter_le_length (a : List Nat) (v : Nat) :
    positionOfOrAfter a v ≤ a.length := by
  induction a with
  | nil => simp [positionOfOrAfter]
  | cons x xs ih =>
    rw [positionOfOrAfter]
    split
    · exact Nat.zero_le _
    · simp only [List.length_cons]
      omega

theorem positionOfOrAfter_lower (a : List Nat) (v : Nat) :
    ∀ j, j < positionOfOrAfter a v → a.getD j 0 < v := by
  induction a with
  | nil => simp [positionOfOrAfter]
  | cons x xs ih =>
    rw [positionOfOrAfter]
    split
    · intro j hj
      omega
    · intro j hj
      cases j with
      | zero =>
        simp only [List.getD_cons_zero]
        omega
      | succ j =>
        simp only [List.getD_cons_succ]
        exact ih j (by omega)

theorem positionOfOrAfter_upper (a : List Nat) (v : Nat)
    (h : positionOfOrAfter a v < a.length) :
    v ≤ a.getD (positionOfOrAfter a v) 0 := by
  induction a with
  | nil => simp [positionOfOrAfter] at h
  | cons x xs ih =>
    by_cases hv : v ≤ x
    · simp [positionOfOrAfter, hv]
    · rw [positionOfOrAfter, if_neg hv] at h ⊢
      simp only [List.getD_cons_succ]
      simp only [List.length_cons] at h
      exact ih (by omega)

theorem ceiling_char_unique (a : List Nat) (v : Nat) (r1 r2 : Nat)
    (h1len : r1 ≤ a.length) (h2len : r2 ≤ a.length)
    (h1lt : ∀ j, j < r1 → a.getD j 0 < v)
    (h1ge : r1 < a.length → v ≤ a.getD r1 0)
    (h2lt : ∀ j, j < r2 → a.getD j 0 < v)
    (h2ge : r2 < a.length → v ≤ a.getD r2 0) : r1 = r2 := by
  by_contra hne
  rcases Nat.lt_or_ge r1 r2 with h | h
  · have ha := h2lt r1 h
    have hb := h1ge (by omega)
    omega
  · have h' : r2 < r1 := by omega
    have ha := h1lt r2 h'
    have hb := h2ge (by omega)
    omega

/-! ### Correctness of the `searchsorted` binary search -/

theorem bisectLeftAux_spec (a : List Nat) (v : Nat) (hs : a.Sorted (· < ·)) :
    ∀ fuel lo hi, hi - lo ≤ fuel → lo ≤ hi → hi ≤ a.length →
    (∀ j, j < lo → a.getD j 0 < v) →
    (∀ j, hi ≤ j → j < a.length → v ≤ a.getD j 0) →
    lo ≤ bisectLeftAux a v fuel lo hi ∧
    bisectLeftAux a v fuel lo hi ≤ hi ∧
    (∀ j, j < bisectLeftAux a v fuel lo hi → a.getD j 0 < v) ∧
    (bisectLeftAux a v fuel lo hi < a.length →
      v ≤ a.getD (bisectLeftAux a v fuel lo hi) 0) := by
  intro fuel
  induction fuel with
  | zero =>
    intro lo hi hfuel hlohi hhi hlow hhigh
    have heq : lo = hi := by omega
    subst heq
    rw [bisectLeftAux]
    exact ⟨Nat.le_refl _, Nat.le_refl _, hlow,
      fun h => hhigh lo (Nat.le_refl _) h⟩
  | succ fuel ih =>
    intro lo hi hfuel hlohi hhi hlow hhigh
    rw [bisectLeftAux]
    by_cases hlt : lo < hi
    · rw [if_pos hlt]
      have hmid1 : lo ≤ (lo + hi) / 2 := by omega
      have hmid2 : (lo + hi) / 2 < hi := by omega
      by_cases hcmp : a.getD ((lo + hi) / 2) 0 < v
      · rw [if_pos hcmp]
        have hlow' : ∀ j, j < (lo + hi) / 2 + 1 → a.getD j 0 < v := by
          intro j hj
          rcases Nat.lt_or_ge j ((lo + hi) / 2) with hj' | hj'
          · exact lt_of_lt_of_le
              (getD_lt_getD hs hj' (by omega)) (Nat.le_of_lt hcmp)
          · have : j = (lo + hi) / 2 := by omega
            subst this
            exact hcmp
        obtain ⟨h1, h2, h3, h4⟩ :=
          ih ((lo + hi) / 2 + 1) hi (by omega) (by omega) hhi hlow' hhigh
        exact ⟨by omega, h2, h3, h4⟩
      · rw [if_neg hcmp]
        have hhigh' : ∀ j, (lo + hi) / 2 ≤ j → j < a.length →
            v ≤ a.getD j 0 := by
          intro j hj hjlen
          exact Nat.le_trans (Nat.le_of_not_lt hcmp)
            (getD_le_getD hs hj hjlen)
        obtain ⟨h1, h2, h3, h4⟩ :=
          ih lo ((lo + hi) / 2) (by omega) (by omega) (by omega) hlow hhigh'
        exact ⟨h1, by omega, h3, h4⟩
    · rw [if_neg hlt]
      have heq : lo = hi := by omega
      exact ⟨Nat.le_refl _, by omega, hlow,
        fun h => hhigh lo (by omega) h⟩

theorem searchsorted_le_length (a : List Nat) (v : Nat)
    (hs : a.Sorted (· < ·)) : searchsorted a v ≤ a.length :=
  (bisectLeftAux_spec a v hs a.length 0 a.length (by omega) (Nat.zero_le _)
    (Nat.le_refl _) (by omega)
    (fun j hj hj2 => absurd hj2 (Nat.not_lt.mpr hj))).2.1

theorem searchsorted_lower (a : List Nat) (v : Nat) (hs : a.Sorted (· < ·)) :
    ∀ j, j < searchsorted a v → a.getD j 0 < v :=
  (bisectLeftAux_spec a v hs a.length 0 a.length (by omega) (Nat.zero_le _)
    (Nat.le_refl _) (by omega)
    (fun j hj hj2 => absurd hj2 (Nat.not_lt.mpr hj))).2.2.1

theorem searchsorted_upper (a : List Nat) (v : Nat) (hs : a.Sorted (· < ·)) :
    searchsorted a v < a.length → v ≤ a.getD (searchsorted a v) 0 :=
  (bisectLeftAux_spec a v hs a.length 0 a.length (by omega) (Nat.zero_le _)
    (Nat.le_refl _) (by omega)
    (fun j hj hj2 => absurd hj2 (Nat.not_lt.mpr hj))).2.2.2

theorem searchsorted_eq_positionOfOrAfter (a : List Nat) (v : Nat)
    (hs : a.Sorted (· < ·)) : searchsorted a v = positionOfOrAfter a v :=
  ceiling_char_unique a v _ _ (searchsorted_le_length a v hs)
    (positionOfOrAfter_le_length a v) (searchsorted_lower a v hs)
    (searchsorted_upper a v hs) (positionOfOrAfter_lower a v)
    (positionOfOrAfter_upper a v)

/-! ### Correctness of the `rollback` linear scan -/

theorem scanBackAux_spec (a : List Nat) (v : Nat) :
    ∀ n, n ≤ a.length →
    -1 ≤ scanBackAux a v n ∧ scanBackAux a v n < (n : Int) ∧
    (∀ j : Nat, scanBackAux a v n < (j : Int) → j < n → v < a.getD j 0) ∧
    (0 ≤ scanBackAux a v n → a.getD (scanBackAux a v n).toNat 0 ≤ v) := by
  intro n
  induction n with
  | zero =>
    intro _
    rw [scanBackAux]
    refine ⟨by omega, by omega, ?_, by omega⟩
    intro j _ hj
    omega
  | succ n ih =>
    intro hn
    rw [scanBackAux]
    by_cases hcmp : a.getD n 0 > v
    · rw [if_pos hcmp]
      obtain ⟨h1, h2, h3, h4⟩ := ih (by omega)
      refine ⟨h1, by omega, ?_, h4⟩
      intro j hj hjn
      rcases Nat.lt_or_ge j n with hj' | hj'
      · exact h3 j hj hj'
      · have : j = n := by omega
        subst this
        exact hcmp
    · rw [if_neg hcmp]
      refine ⟨by omega, by omega, ?_, ?_⟩
      · intro j hj hjn
        omega
      · intro _
        simp only [Int.toNat_ofNat]
        omega

theorem scanBack_spec (a : List Nat) (v : Nat) :
    -1 ≤ scanBack a v ∧ scanBack a v < (a.length : Int) ∧
    (∀ j : Nat, scanBack a v < (j : Int) → j < a.length → v < a.getD j 0) ∧
    (0 ≤ scanBack a v → a.getD (scanBack a v).toNat 0 ≤ v) :=
  scanBackAux_spec a v a.length (Nat.le_refl _)

theorem positionOfOrBefore_spec (a : List Nat) (v : Nat) :
    -1 ≤ positionOfOrBefore a v ∧
    positionOfOrBefore a v < (a.length : Int) ∧
    (∀ j : Nat, positionOfOrBefore a v < (j : Int) → j < a.length →
      v < a.getD j 0) ∧
    (0 ≤ positionOfOrBefore a v →
      a.getD (positionOfOrBefore a v).toNat 0 ≤ v) := by
  induction a with
  | nil =>
    rw [positionOfOrBefore]
    refine ⟨by omega, by omega, ?_, by omega⟩
    intro j _ hj
    simp at hj
  | cons x xs ih =>
    obtain ⟨h1, h2, h3, h4⟩ := ih
    rw [positionOfOrBefore]
    by_cases h0 : 0 ≤ positionOfOrBefore xs v
    · rw [if_pos h0]
      simp only [List.length_cons]
      refine ⟨by omega, by omega, ?_, ?_⟩
      · intro j hj hjlen
        cases j with
        | zero => omega
        | succ j =>
          simp only [List.getD_cons_succ]
          exact h3 j (by omega) (by omega)
      · intro _
        have ht : (positionOfOrBefore xs v + 1).toNat =
            (positionOfOrBefore xs v).toNat + 1 := by omega
        rw [ht]
        simp only [List.getD_cons_succ]
        exact h4 h0
    · rw [if_neg h0]
      by_cases hx : x ≤ v
      · rw [if_pos hx]
        simp only [List.length_cons]
        refine ⟨by omega, by omega, ?_, ?_⟩
        · intro j hj hjlen
          cases j with
          | zero => omega
          | succ j =>
            simp only [List.getD_cons_succ]
            exact h3 j (by omega) (by omega)
        · intro _
          simpa using hx
      · rw [if_neg hx]
        simp only [List.length_cons]
        refine ⟨by omega, by omega, ?_, by omega⟩
        intro j hj hjlen
        cases j with
        | zero => simpa using Nat.lt_of_not_le hx
        | succ j =>
          simp only [List.getD_cons_succ]
          exact h3 j (by omega) (by omega)

theorem floor_char_unique (a : List Nat) (v : Nat) (r1 r2 : Int)
    (h1a : -1 ≤ r1) (h1b : r1 < (a.length : Int))
    (h1c : ∀ j : Nat, r1 < (j : Int) → j < a.length → v < a.getD j 0)
    (h1d : 0 ≤ r1 → a.getD r1.toNat 0 ≤ v)
    (h2a : -1 ≤ r2) (h2b : r2 < (a.length : Int))
    (h2c : ∀ j : Nat, r2 < (j : Int) → j < a.length → v < a.getD j 0)
    (h2d : 0 ≤ r2 → a.getD r2.toNat 0 ≤ v) : r1 = r2 := by
  by_contra hne
  rcases Int.lt_or_lt_of_ne hne with h | h
  · have hr2 : 0 ≤ r2 := by omega
    have ha := h2d hr2
    have hb := h1c r2.toNat (by omega) (by omega)
    omega
  · have hr1 : 0 ≤ r1 := by omega
    have ha := h1d hr1
    have hb := h2c r1.toNat (by omega) (by omega)
    omega

theorem scanBack_eq_positionOfOrBefore (a : List Nat) (v : Nat) :
    scanBack a v = positionOfOrBefore a v := by
  obtain ⟨h1, h2, h3, h4⟩ := scanBack_spec a v
  obtain ⟨g1, g2, g3, g4⟩ := positionOfOrBefore_spec a v
  exact floor_char_unique a v _ _ h1 h2 h3 h4 g1 g2 g3 g4

/-! ### Anchors at positions already satisfying the mode -/

theorem searchsorted_of_mem {a : List Nat} (hs : a.Sorted (· < ·)) {v : Nat}
    (hv : v ∈ a) :
    searchsorted a v < a.length ∧ a.getD (searchsorted a v) 0 = v := by
  obtain ⟨k, hk, hkv⟩ := List.mem_iff_getElem.mp hv
  have hkD : a.getD k 0 = v := by
    rw [List.getD_eq_getElem a 0 hk]
    exact hkv
  have hik : searchsorted a v ≤ k := by
    by_contra hik
    have := searchsorted_lower a v hs k (by omega)
    omega
  have hilen : searchsorted a v < a.length := by omega
  refine ⟨hilen, ?_⟩
  have hup := searchsorted_upper a v hs hilen
  have hmono := getD_le_getD hs hik hk
  omega

theorem scanBack_of_mem {a : List Nat} (hs : a.Sorted (· < ·)) {v : Nat}
    (hv : v ∈ a) :
    0 ≤ scanBack a v ∧ scanBack a v < (a.length : Int) ∧
    a.getD (scanBack a v).toNat 0 = v := by
  obtain ⟨k, hk, hkv⟩ := List.mem_iff_getElem.mp hv
  have hkD : a.getD k 0 = v := by
    rw [List.getD_eq_getElem a 0 hk]
    exact hkv
  obtain ⟨h1, h2, h3, h4⟩ := scanBack_spec a v
  have hki : (k : Int) ≤ scanBack a v := by
    by_contra hki
    have := h3 k (by omega) hk
    omega
  have h0 : 0 ≤ scanBack a v := by omega
  refine ⟨h0, h2, ?_⟩
  have hmono := getD_le_getD hs (show k ≤ (scanBack a v).toNat by omega)
    (show (scanBack a v).toNat < a.length by omega)
  have := h4 h0
  omega

theorem scanBack_toNat_eq_searchsorted_of_mem {a : List Nat}
    (hs : a.Sorted (· < ·)) {v : Nat} (hv : v ∈ a) :
    (scanBack a v).toNat = searchsorted a v := by
  obtain ⟨hf1, hf2⟩ := searchsorted_of_mem hs hv
  obtain ⟨hb0, hb1, hb2⟩ := scanBack_of_mem hs hv
  exact getD_inj hs (by omega) hf1 (by rw [hb2, hf2])

/-! ### Outcome characterizations of `rollforward` and `rollback` -/

theorem rollforward_none_iff (s : Schedule) (loc : Nat) (steps : Int)
    (duty : String) :
    rollforward s loc steps duty = none ↔
      (searchsorted (resolveIdx s loc duty) loc =
          (resolveIdx s loc duty).length ∨
        (searchsorted (resolveIdx s loc duty) loc : Int) + steps < 0 ∨
        (searchsorted (resolveIdx s loc duty) loc : Int) + steps ≥
          ((resolveIdx s loc duty).length : Int)) := by
  unfold rollforward
  dsimp only
  split
  · next h => exact iff_of_true rfl h
  · next h => exact iff_of_false (by simp) h

theorem rollback_none_iff (s : Schedule) (loc : Nat) (steps : Int)
    (duty : String) :
    rollback s loc steps duty = none ↔
      (scanBack (resolveIdx s loc duty) loc = -1 ∨
        scanBack (resolveIdx s loc duty) loc - steps < 0 ∨
        scanBack (resolveIdx s loc duty) loc - steps ≥
          ((resolveIdx s loc duty).length : Int)) := by
  unfold rollback
  dsimp only
  split
  · next h => exact iff_of_true rfl h
  · next h => exact iff_of_false (by simp) h

theorem rollforward_some_char (s : Schedule) (loc : Nat) (steps : Int)
    (duty : String) (r : Nat) (h : rollforward s loc steps duty = some r) :
    searchsorted (resolveIdx s loc duty) loc <
      (resolveIdx s loc duty).length ∧
    0 ≤ (searchsorted (resolveIdx s loc duty) loc : Int) + steps ∧
    (searchsorted (resolveIdx s loc duty) loc : Int) + steps <
      ((resolveIdx s loc duty).length : Int) ∧
    r = (resolveIdx s loc duty).getD
      ((searchsorted (resolveIdx s loc duty) loc : Int) + steps).toNat 0 := by
  have hle := searchsorted_le_length _ loc (sorted_resolveIdx s loc duty)
  unfold rollforward at h
  dsimp only at h
  split at h
  · exact absurd h (by simp)
  · next hg =>
    push_neg at hg
    obtain ⟨hg1, hg2, hg3⟩ := hg
    have hr : pyGetD (resolveIdx s loc duty)
        ((searchsorted (resolveIdx s loc duty) loc : Int) + steps) = r :=
      Option.some.inj h
    rw [pyGetD, if_neg (by omega)] at hr
    exact ⟨by omega, by omega, by omega, hr.symm⟩

theorem rollback_some_char (s : Schedule) (loc : Nat) (steps : Int)
    (duty : String) (r : Nat) (h : rollback s loc steps duty = some r) :
    0 ≤ scanBack (resolveIdx s loc duty) loc ∧
    0 ≤ scanBack (resolveIdx s loc duty) loc - steps ∧
    scanBack (resolveIdx s loc duty) loc - steps <
      ((resolveIdx s loc duty).length : Int) ∧
    r = (resolveIdx s loc duty).getD
      (scanBack (resolveIdx s loc duty) loc - steps).toNat 0 := by
  have hlow := (scanBack_spec (resolveIdx s loc duty) loc).1
  unfold rollback at h
  dsimp only at h
  split at h
  · exact absurd h (by simp)
  · next hg =>
    push_neg at hg
    obtain ⟨hg1, hg2, hg3⟩ := hg
    have hr : pyGetD (resolveIdx s loc duty)
        (scanBack (resolveIdx s loc duty) loc - steps) = r :=
      Option.some.inj h
    rw [pyGetD, if_neg (by omega)] at hr
    exact ⟨by omega, by omega, by omega, hr.symm⟩

/-- The embedded navigation reproduces every worked example the spec gives
for the `N = 10` alternating schedule. -/
theorem spec_running_examples :
    s10.on_duty_index = [0, 2, 4, 6, 8] ∧
    s10.off_duty_index = [1, 3, 5, 7, 9] ∧
    rollforward s10 3 0 "on" = some 4 ∧
    rollforward s10 3 1 "on" = some 6 ∧
    rollback s10 3 0 "on" = some 2 ∧
    rollforward s10 3 0 "same" = some 3 ∧
    rollforward s10 3 1 "alt" = some 6 ∧
    rollforward s10 0 10 "on" = none ∧
    rollforward s10 9 0 "off" = some 9 ∧
    rollforward s10 9 1 "off" = none := by
  decide

/-! ### Claims -/

/-- Claim C1, as stated, is false on the code: at the valid start position
`3` of the example schedule (off-duty, so `3` does not satisfy duty `"on"`),
with `k = 0`, both `rollforward(3, steps=0, 'on')` and
`rollback(3, steps=-0, 'on')` succeed, yet they return `4` and `2`
respectively — the forward anchor is the ceiling and the backward anchor the
floor of a non-qualifying start, so the two anchors differ. -/
theorem c1_sign_symmetry_counterexample :
    (rollforward s10 3 0 "on").isSome ∧
    (rollback s10 3 (-(0 : Int)) "on").isSome ∧
    rollforward s10 3 0 "on" ≠ rollback s10 3 (-(0 : Int)) "on" := by
  decide

/-- Claim C1 (amended): for every start position `p` that itself satisfies
duty mode `m` (`p` is a member of the sequence resolved for `m`) and every
integer `k`, `rollforward(p, steps=k, m)` and `rollback(p, steps=-k, m)`
agree — both fail, or both succeed with the same position; in particular
they return the same position whenever both are in range. -/
theorem c1_sign_symmetry_amended (s : Schedule) (loc : Nat) (steps : Int)
    (duty : String) (hq : loc ∈ resolveIdx s loc duty) :
    rollforward s loc steps duty = rollback s loc (-steps) duty := by
  have hs := sorted_resolveIdx s loc duty
  have hmemf := searchsorted_of_mem hs hq
  have hmemb := scanBack_of_mem hs hq
  have hidx := scanBack_toNat_eq_searchsorted_of_mem hs hq
  have hb : scanBack (resolveIdx s loc duty) loc =
      (searchsorted (resolveIdx s loc duty) loc : Int) := by omega
  have hlen := hmemf.1
  unfold rollforward rollback
  dsimp only
  rw [hb]
  simp only [sub_neg_eq_add]
  by_cases hg : (searchsorted (resolveIdx s loc duty) loc : Int) + steps < 0 ∨
      (searchsorted (resolveIdx s loc duty) loc : Int) + steps ≥
        ((resolveIdx s loc duty).length : Int)
  · rw [if_pos (Or.inr hg), if_pos (Or.inr hg)]
  · rw [if_neg (by omega), if_neg (by omega)]

/-- Witness for the amended C1 at a concrete qualifying start. -/
theorem c1_sign_symmetry_witness :
    (4 : Nat) ∈ resolveIdx s10 4 "on" ∧
    rollforward s10 4 3 "on" = rollback s10 4 (-3) "on" :=
  ⟨by decide, c1_sign_symmetry_amended s10 4 3 "on" (by decide)⟩

/-- Claim C2: a successful `rollforward` returns `seq[i + steps]` where
`seq` is the sequence resolved for the mode and `i` is the smallest index
with `seq[i] >= p` (the spec's `positionOfOrAfter`); the access is a genuine
in-range lookup (`getElem?` succeeds). -/
theorem c2_rollforward_returns_stepped_anchor (s : Schedule) (loc : Nat)
    (steps : Int) (duty : String)
    (h : (rollforward s loc steps duty).isSome) :
    rollforward s loc steps duty =
      (resolveIdx s loc duty)[((positionOfOrAfter (resolveIdx s loc duty)
        loc : Int) + steps).toNat]? := by
  obtain ⟨r, hr⟩ := Option.isSome_iff_exists.mp h
  obtain ⟨h1, h2, h3, h4⟩ := rollforward_some_char s loc steps duty r hr
  rw [hr, ← searchsorted_eq_positionOfOrAfter _ _
    (sorted_resolveIdx s loc duty), h4]
  have hlt : ((searchsorted (resolveIdx s loc duty) loc : Int) +
      steps).toNat < (resolveIdx s loc duty).length := by omega
  rw [List.getD_eq_getElem _ 0 hlt]
  exact (List.getElem?_eq_getElem hlt).symm

/-- Witness for C2 at the spec's example: from `p = 3`, one on-duty step
forward lands on `6`. -/
theorem c2_witness :
    (rollforward s10 3 1 "on").isSome ∧
    rollforward s10 3 1 "on" =
      (resolveIdx s10 3 "on")[((positionOfOrAfter (resolveIdx s10 3 "on")
        3 : Int) + 1).toNat]? :=
  ⟨by decide, c2_rollforward_returns_stepped_anchor s10 3 1 "on" (by decide)⟩

/-- Claim C3: on every strictly increasing sequence the `rollback` linear
scan computes exactly the spec's `positionOfOrBefore` (largest index at or
below the position, `-1` if none), mirroring the binary-search forward
anchor, which computes exactly `positionOfOrAfter`. -/
theorem c3_scan_refines_floor_search (idx : List Nat) (p : Nat)
    (hs : idx.Sorted (· < ·)) :
    scanBack idx p = positionOfOrBefore idx p ∧
    searchsorted idx p = positionOfOrAfter idx p :=
  ⟨scanBack_eq_positionOfOrBefore idx p,
    searchsorted_eq_positionOfOrAfter idx p hs⟩

/-- Witness for C3 on the example on-duty index. -/
theorem c3_witness :
    ([0, 2, 4, 6, 8] : List Nat).Sorted (· < ·) ∧
    (scanBack [0, 2, 4, 6, 8] 3 = positionOfOrBefore [0, 2, 4, 6, 8] 3 ∧
      searchsorted [0, 2, 4, 6, 8] 3 = positionOfOrAfter [0, 2, 4, 6, 8] 3) :=
  ⟨by decide, c3_scan_refines_floor_search [0, 2, 4, 6, 8] 3 (by decide)⟩

/-- Claim C4: when the start position already satisfies the mode (it is a
member of the resolved sequence), zero steps return the position itself in
both directions — the anchor is inclusive of self. -/
theorem c4_zero_step_inclusive (s : Schedule) (p : Nat) (duty : String)
    (hq : p ∈ resolveIdx s p duty) :
    rollforward s p 0 duty = some p ∧ rollback s p 0 duty = some p := by
  have hs := sorted_resolveIdx s p duty
  obtain ⟨hf1, hf2⟩ := searchsorted_of_mem hs hq
  obtain ⟨hb0, hb1, hb2⟩ := scanBack_of_mem hs hq
  constructor
  · unfold rollforward
    dsimp only
    rw [if_neg (by omega)]
    simp only [pyGetD]
    rw [if_neg (by omega)]
    have ht : ((searchsorted (resolveIdx s p duty) p : Int) + 0).toNat =
        searchsorted (resolveIdx s p duty) p := by omega
    rw [ht, hf2]
  · unfold rollback
    dsimp only
    rw [if_neg (by omega)]
    simp only [pyGetD]
    rw [if_neg (by omega)]
    have ht : scanBack (resolveIdx s p duty) p - 0 =
        scanBack (resolveIdx s p duty) p := by omega
    rw [ht, hb2]

/-- Witness for C4 at the spec's example `p = 9`, off-duty. -/
theorem c4_witness :
    (9 : Nat) ∈ resolveIdx s10 9 "off" ∧
    (rollforward s10 9 0 "off" = some 9 ∧ rollback s10 9 0 "off" = some 9) :=
  ⟨by decide, c4_zero_step_inclusive s10 9 "off" (by decide)⟩

/-- Claim C5: `rollforward`/`rollback` signal out-of-bounds (invoke the
container's handler, modelled `none`) exactly when no zero-step anchor
exists in the resolved sequence or the stepped index leaves `[0, len)`; in
every other case the returned position is an element of the resolved
sequence — never clamped or wrapped. -/
theorem c5_out_of_bounds_exactly (s : Schedule) (loc : Nat) (steps : Int)
    (duty : String) :
    (rollforward s loc steps duty = none ↔
      (positionOfOrAfter (resolveIdx s loc duty) loc =
          (resolveIdx s loc duty).length ∨
        (positionOfOrAfter (resolveIdx s loc duty) loc : Int) + steps < 0 ∨
        (positionOfOrAfter (resolveIdx s loc duty) loc : Int) + steps ≥
          ((resolveIdx s loc duty).length : Int))) ∧
    (rollback s loc steps duty = none ↔
      (positionOfOrBefore (resolveIdx s loc duty) loc = -1 ∨
        positionOfOrBefore (resolveIdx s loc duty) loc - steps < 0 ∨
        positionOfOrBefore (resolveIdx s loc duty) loc - steps ≥
          ((resolveIdx s loc duty).length : Int))) ∧
    (∀ r, rollforward s loc steps duty = some r →
      r ∈ resolveIdx s loc duty) ∧
    (∀ r, rollback s loc steps duty = some r →
      r ∈ resolveIdx s loc duty) := by
  have hs := sorted_resolveIdx s loc duty
  refine ⟨?_, ?_, ?_, ?_⟩
  · rw [rollforward_none_iff, searchsorted_eq_positionOfOrAfter _ _ hs]
  · rw [rollback_none_iff, scanBack_eq_positionOfOrBefore]
  · intro r hr
    obtain ⟨h1, h2, h3, h4⟩ := rollforward_some_char s loc steps duty r hr
    rw [h4]
    exact getD_mem (by omega)
  · intro r hr
    obtain ⟨h1, h2, h3, h4⟩ := rollback_some_char s loc steps duty r hr
    rw [h4]
    exact getD_mem (by omega)

/-- Witness for C5: the successful step from `p = 3` returns a member of
the resolved on-duty sequence. -/
theorem c5_witness : (6 : Nat) ∈ resolveIdx s10 3 "on" :=
  (c5_out_of_bounds_exactly s10 3 1 "on").2.2.1 6 (by decide)

/-- Claim C6: the sequence-resolution step shared by `rollforward` and
`rollback` (both methods contain it verbatim; here factored as
`resolveIdx`) maps `'on'` to the on-duty sequence, `'off'` to the off-duty
sequence, `'same'` to the start position's own duty's sequence, `'alt'` to
the opposite one, and `'any'` to the full index. -/
theorem c6_mode_table (s : Schedule) (loc : Nat) :
    resolveIdx s loc "on" = s.on_duty_index ∧
    resolveIdx s loc "off" = s.off_duty_index ∧
    resolveIdx s loc "same" =
      (if s.is_on_duty loc then s.on_duty_index else s.off_duty_index) ∧
    resolveIdx s loc "alt" =
      (if s.is_on_duty loc then s.off_duty_index else s.on_duty_index) ∧
    resolveIdx s loc "any" = s.index := by
  refine ⟨rfl, rfl, ?_, ?_, rfl⟩ <;>
    cases h : s.isOn loc <;>
      simp [resolveIdx, Schedule.is_on_duty, Schedule.is_off_duty, h]

/-- Claim C7: any duty string outside the recognized set
`{'off', 'same', 'alt', 'any'}` silently falls through to the on-duty
sequence, so navigation behaves exactly as with `duty='on'`. -/
theorem c7_unrecognized_duty_behaves_as_on (s : Schedule) (loc : Nat)
    (steps : Int) (duty : String) (h1 : duty ≠ "off") (h2 : duty ≠ "same")
    (h3 : duty ≠ "alt") (h4 : duty ≠ "any") :
    rollforward s loc steps duty = rollforward s loc steps "on" ∧
    rollback s loc steps duty = rollback s loc steps "on" := by
  have hcond : ¬(duty = "off" ∨ (duty = "same" ∧ s.is_off_duty loc) ∨
      (duty = "alt" ∧ s.is_on_duty loc)) := by
    rintro (h | ⟨h, -⟩ | ⟨h, -⟩)
    · exact h1 h
    · exact h2 h
    · exact h3 h
  have hidx : resolveIdx s loc duty = resolveIdx s loc "on" := by
    unfold resolveIdx
    rw [if_neg hcond, if_neg h4]
    rfl
  constructor
  · unfold rollforward
    rw [hidx]
  · unfold rollback
    rw [hidx]

/-- Witness for C7 with the unrecognized duty string `"bogus"`. -/
theorem c7_witness :
    ("bogus" : String) ≠ "off" ∧ ("bogus" : String) ≠ "same" ∧
    ("bogus" : String) ≠ "alt" ∧ ("bogus" : String) ≠ "any" ∧
    (rollforward s10 3 1 "bogus" = rollforward s10 3 1 "on" ∧
      rollback s10 3 1 "bogus" = rollback s10 3 1 "on") :=
  ⟨by decide, by decide, by decide, by decide,
    c7_unrecognized_duty_behaves_as_on s10 3 1 "bogus" (by decide)
      (by decide) (by decide) (by decide)⟩

/-- Claim C8: `ws + n` dispatches (for a Python `int` operand) to exactly
`rollforward(steps=n, duty='on')` and `ws - n` to exactly
`rollback(steps=n, duty='on')`; the implicit mode is `'on'`, not `'any'`,
as the concrete disagreement with `'any'` shows. -/
theorem c8_operators_use_duty_on (s : Schedule) (loc : Nat) (n : Int) :
    wsAdd s loc (.int n) = some (rollforward s loc n "on") ∧
    wsSub s loc (.int n) = some (rollback s loc n "on") ∧
    wsAdd s10 0 (.int 1) ≠ some (rollforward s10 0 1 "any") ∧
    wsSub s10 4 (.int 1) ≠ some (rollback s10 4 1 "any") :=
  ⟨rfl, rfl, by decide, by decide⟩

/-- Claim C9: `Workshift.__init__` fails with a type mismatch exactly when
the schedule's label lookup raises `TypeError`, with `OutOfBoundsError`
exactly when the lookup raises `IndexError`, and otherwise succeeds storing
the location unchanged; the constructor never pre-rejects any location —
in particular a negative one is accepted whenever the lookup resolves it. -/
theorem c9_init_error_mapping (lookup : Int → LabelResult) (loc : Int) :
    (workshiftInit lookup loc = .typeMismatch ↔ lookup loc = .typeError) ∧
    (workshiftInit lookup loc = .outOfBounds ↔ lookup loc = .indexError) ∧
    (∀ label, lookup loc = .ok label →
      workshiftInit lookup loc = .ok loc label) := by
  unfold workshiftInit
  cases h : lookup loc <;> simp_all

/-- Witness for C9: a schedule that resolves the negative location `-5`
yields a successfully constructed workshift at `-5`. -/
theorem c9_witness :
    workshiftInit (fun _ => .ok 7) (-5) = .ok (-5) 7 :=
  (c9_init_error_mapping (fun _ => .ok 7) (-5)).2.2 7 rfl

/-- Claim C10: on every successful return the stepped index (`i + steps`
forward, `i - steps` backward) lies in `[0, len idx)`, the result is the
plain in-range array entry at that index, and Python's negative-index
wraparound branch of the subscription is never exercised. -/
theorem c10_stepped_index_in_bounds (s : Schedule) (loc : Nat) (steps : Int)
    (duty : String) :
    (∀ r, rollforward s loc steps duty = some r →
      0 ≤ (searchsorted (resolveIdx s loc duty) loc : Int) + steps ∧
      (searchsorted (resolveIdx s loc duty) loc : Int) + steps <
        ((resolveIdx s loc duty).length : Int) ∧
      r = (resolveIdx s loc duty).getD
        ((searchsorted (resolveIdx s loc duty) loc : Int) + steps).toNat 0) ∧
    (∀ r, rollback s loc steps duty = some r →
      0 ≤ scanBack (resolveIdx s loc duty) loc - steps ∧
      scanBack (resolveIdx s loc duty) loc - steps <
        ((resolveIdx s loc duty).length : Int) ∧
      r = (resolveIdx s loc duty).getD
        (scanBack (resolveIdx s loc duty) loc - steps).toNat 0) := by
  constructor
  · intro r hr
    obtain ⟨h1, h2, h3, h4⟩ := rollforward_some_char s loc steps duty r hr
    exact ⟨h2, h3, h4⟩
  · intro r hr
    obtain ⟨h1, h2, h3, h4⟩ := rollback_some_char s loc steps duty r hr
    exact ⟨h2, h3, h4⟩

/-- Witness for C10 at a concrete successful forward step. -/
theorem c10_witness :
    0 ≤ (searchsorted (resolveIdx s10 3 "on") 3 : Int) + 1 ∧
    (searchsorted (resolveIdx s10 3 "on") 3 : Int) + 1 <
      ((resolveIdx s10 3 "on").length : Int) ∧
    (6 : Nat) = (resolveIdx s10 3 "on").getD
      ((searchsorted (resolveIdx s10 3 "on") 3 : Int) + 1).toNat 0 :=
  (c10_stepped_index_in_bounds s10 3 1 "on").1 6 (by decide)

end Timeboard
